import Mathlib

/-!
Shallow embedding of the Competitii lottery bot (`src/bot.js`).

The repository contains two variants of the same bot (a file-backed variant
and a MongoDB-backed variant) with identical draw / participant / referral
logic.  We embed the file-backed variant (the first half of `bot.js`) and
note where the MongoDB variant differs.

Modelling conventions:
* JavaScript objects keyed by draw ids (`draws`, `participants`) use keys
  produced by `Date.now().toString()`.  Those strings are numeric but larger
  than 2^32 - 1, so they are ordinary string keys and `Object.values`
  enumerates them in insertion order.  We model such objects as association
  lists in insertion order, with assignment `obj[k] = v` as
  update-in-place-or-append.
* The `referrals` object is keyed by user ids parsed from the `/start`
  payload.  ECMAScript enumerates array-index keys (canonical integers
  below 2^32 - 1) first, in ascending numeric order, and all other keys —
  including numeric ids at or above 2^32 - 1 — afterwards, as string keys
  in insertion order.  We model `referrals` as an association list in
  enumeration order: a sorted prefix of array-index-sized keys followed by
  larger keys in insertion order (the well-formedness predicate `RefWF`),
  with assignment `referrals[k] = v` inserting a fresh array-index-sized
  key at its sorted position and appending a fresh larger key at the end.
* `Array.prototype.sort` with the comparator `(a, b) => b.count - a.count`
  is a stable sort (ES2019); a stable sort of a list is unique, so we embed
  it as a stable insertion sort by count descending.
* The winner shuffle `entries.slice().sort(() => 0.5 - Math.random())` is an
  engine-defined comparison sort driven by random comparator outcomes; every
  such sort returns some permutation of its input.  Operations taking the
  shuffle as input receive it as a function parameter `sh` together with the
  hypothesis that it permutes its argument.
* Telegram chat lookup (`bot.api.getChat`) is an external collaborator,
  passed in as a resolver `Nat → Option ChatInfo`; `none` models both a
  thrown error and a chat with no username / first name, matching the
  `catch` branch.
* Admin gating (`ctx.from.id !== ADMIN_ID`) is orthogonal to every claim
  below; operations are modelled as invoked by the admin.
-/

namespace LotteryBot

/-- Record shape stored in `draws[id] = { id, title, active, winners }`
(`bot.js` line 328).  `winners` holds the strings pushed into
`winnerMentions`, exactly as persisted by the `/draw` command. -/
structure DrawRec where
  id : String
  title : String
  active : Bool
  winners : List String
deriving DecidableEq, Repr

/-- The `participants` object: draw id (a string key) to array of user ids,
in insertion order. -/
abbrev PartMap := List (String × List Nat)

/-- The `referrals` object: referrer user id to array of referred user ids.
Kept sorted by key, matching ECMAScript enumeration of integer-like keys. -/
abbrev RefMap := List (Nat × List Nat)

/-- Result of `bot.api.getChat`: the fields the bot reads.  Empty-string
falsiness of `chat.username` and `chat.first_name` is folded into `Option`. -/
structure ChatInfo where
  username : Option String
  firstName : Option String
deriving DecidableEq, Repr

/-- Replies of the `/join` command (lines 247-257). -/
inductive JoinResult where
  | noActive
  | alreadyJoined
  | joined
deriving DecidableEq, Repr

/-- Replies of the `/closedraw` command (lines 333-340). -/
inductive CloseResult where
  | noActive
  | closed (title : String)
deriving DecidableEq, Repr

/-- Replies of the `/newdraw` command (lines 323-331). -/
inductive NewDrawResult where
  | usage
  | created (id : String)
deriving DecidableEq, Repr

/-- Replies of the `/draw` command (lines 342-381).  `success` carries the
target draw id, the selected raw user ids (`winners` in the code) and the
persisted mention strings (`winnerMentions`).  The constructor
`invalidStateSpec` is modelled from the spec: the error taxonomy of spec §7
names `InvalidStateError` for drawing a draw in the wrong lifecycle state;
the code never produces it, which is what claim C5's correction records. -/
inductive DrawResult where
  | noClosedDraw
  | noParticipants
  | success (drawId : String) (selected : List Nat) (mentions : List String)
  | invalidStateSpec
deriving DecidableEq, Repr

/-- Lookup `participants[id] || []`. -/
def listParts (parts : PartMap) (id : String) : List Nat :=
  (List.lookup id parts).getD []

/-- Assignment `participants[id] = l` on a string-keyed object: replace the
existing key in place, else append (insertion order). -/
def setPart (parts : PartMap) (id : String) (l : List Nat) : PartMap :=
  match parts with
  | [] => [(id, l)]
  | (k, v) :: rest =>
      if k = id then (id, l) :: rest else (k, v) :: setPart rest id l

/-- Assignment `draws[id] = rec` on the string-keyed `draws` object. -/
def setDraw (draws : List DrawRec) (id : String) (rec : DrawRec) : List DrawRec :=
  match draws with
  | [] => [rec]
  | d :: rest => if d.id = id then rec :: rest else d :: setDraw rest id rec

/-- Number of draws whose `active` flag is set. -/
def countActive (draws : List DrawRec) : Nat :=
  (draws.filter (fun d => d.active)).length

/-- The `/newdraw <title>` command (lines 323-331): after the admin check,
`if (!args) return reply("Usage: ...")`, else
`draws[id] = { id, title: args, active: true, winners: [] }`.
No check for an existing active draw is performed. -/
def newdraw (draws : List DrawRec) (id title : String) :
    NewDrawResult × List DrawRec :=
  if title = "" then (.usage, draws)
  else (.created id, setDraw draws id ⟨id, title, true, []⟩)

/-- Mutation `active.active = false` applied to the first active draw found
by `Object.values(draws).find((d) => d.active)`. -/
def closeFirstActive (draws : List DrawRec) : List DrawRec :=
  match draws with
  | [] => []
  | d :: rest =>
      if d.active then { d with active := false } :: rest
      else d :: closeFirstActive rest

/-- The `/closedraw` command (lines 333-340). -/
def closedraw (draws : List DrawRec) : CloseResult × List DrawRec :=
  match draws.find? (fun d => d.active) with
  | none => (.noActive, draws)
  | some a => (.closed a.title, closeFirstActive draws)

/-- Full durable state of the file-backed bot: `draws.json`,
`participants.json`, `referrals.json`. -/
structure BotState where
  draws : List DrawRec
  parts : PartMap
  refs : RefMap
deriving DecidableEq, Repr

/-- The `/closedraw` command acting on the whole durable state; it reads and
writes only `draws` (`saveJSON(DRAWS_FILE, draws)`). -/
def closedrawFull (s : BotState) : CloseResult × BotState :=
  let (r, ds) := closedraw s.draws
  (r, { s with draws := ds })

/-- The `/join` command (lines 247-257): find the active draw, ensure the
participant array exists, reject if the user id is already in it, else push.
(The `participants[active.id] = participants[active.id] || []` step only
changes state when the key is absent, in which case the push branch runs,
so the reject branch always leaves the state unchanged.) -/
def join (draws : List DrawRec) (parts : PartMap) (uid : Nat) :
    JoinResult × PartMap :=
  match draws.find? (fun d => d.active) with
  | none => (.noActive, parts)
  | some a =>
      let l := listParts parts a.id
      if uid ∈ l then (.alreadyJoined, parts)
      else (.joined, setPart parts a.id (l ++ [uid]))

/-- Iterated `/join` by the same user: the list of replies and the final
participant state after `n` consecutive calls. -/
def joinSeq (draws : List DrawRec) (parts : PartMap) (uid : Nat) :
    Nat → List JoinResult × PartMap
  | 0 => ([], parts)
  | n + 1 =>
      let (r, p2) := join draws parts uid
      let (rs, p3) := joinSeq draws p2 uid n
      (r :: rs, p3)

/-- The count argument of `/draw`: `const count = Number(parts[1]) || 1`.
`none` models a missing `parts[1]` (`Number(undefined)` is `NaN`),
`some none` a non-numeric token (`NaN`), `some (some v)` an integer token.
`NaN || 1` and `0 || 1` both evaluate to `1`. -/
def parseCount : Option (Option Int) → Int
  | some (some v) => if v = 0 then 1 else v
  | _ => 1

/-- ECMAScript `arr.slice(0, e)` for an integer `e`: a negative end index is
taken relative to the length, clamped at 0. -/
def jsSlice0 {α : Type} (l : List α) (e : Int) : List α :=
  if e < 0 then l.take ((l.length + e).toNat) else l.take e.toNat

/-- The winner prefix `shuffled.slice(0, Math.min(count, shuffled.length))`
(line 353). -/
def winnersOfShuffle (shuffled : List Nat) (count : Int) : List Nat :=
  jsSlice0 shuffled (min count shuffled.length)

/-- The mention string pushed for one winner (lines 355-365): `"@" +
chat.username` if present, else `first_name + " (id:" + uid + ")"`, else
`String(uid)`; a `getChat` failure also yields `String(uid)`. -/
def mentionFor (res : Nat → Option ChatInfo) (uid : Nat) : String :=
  match res uid with
  | none => toString uid
  | some c =>
      match c.username with
      | some u => "@" ++ u
      | none =>
          match c.firstName with
          | some n => n ++ " (id:" ++ toString uid ++ ")"
          | none => toString uid

/-- Mutation `target.winners = winnerMentions` of the found draw object
(line 366): in the object model, the unique draw with the target id is
updated, every other draw is untouched. -/
def updateWinners (draws : List DrawRec) (id : String) (mentions : List String) :
    List DrawRec :=
  draws.map (fun d => if d.id = id then { d with winners := mentions } else d)

/-- The `/draw <count>` command (lines 342-381).  `arg` is the parsed
`parts[1]` token, `sh` the engine shuffle (a permutation of its input), and
`res` the external `getChat` resolver.  The target is
`Object.values(draws).reverse().find((d) => !d.active && (!d.winners ||
d.winners.length === 0))`. -/
def drawCmd (draws : List DrawRec) (parts : PartMap) (arg : Option (Option Int))
    (sh : List Nat → List Nat) (res : Nat → Option ChatInfo) :
    DrawResult × List DrawRec :=
  let count := parseCount arg
  match draws.reverse.find? (fun d => !d.active && d.winners.isEmpty) with
  | none => (.noClosedDraw, draws)
  | some target =>
      let entries := listParts parts target.id
      if entries.isEmpty then (.noParticipants, draws)
      else
        let shuffled := sh entries
        let sel := winnersOfShuffle shuffled count
        let mentions := sel.map (mentionFor res)
        (.success target.id sel mentions, updateWinners draws target.id mentions)

/-- List of user ids referred by `uid`: `referrals[uid] || []`
(the `/referrals` command, lines 286-298; spec operation `ListReferredBy`). -/
def listReferredBy (refs : RefMap) (uid : Nat) : List Nat :=
  (List.lookup uid refs).getD []

/-- Largest exclusive bound of ECMAScript array indices: keys whose numeric
value is below `2^32 - 1` enumerate in ascending numeric order; keys at or
above it are ordinary string keys enumerating in insertion order. -/
def arrayIndexBound : Nat := 4294967295

/-- Assignment `referrals[k] = v` in enumeration order: an existing key is
updated in place; a fresh array-index-sized key (`k < arrayIndexBound`) is
inserted at its sorted position among the array-index keys (before the
first strictly larger key — every string-sized key is larger); a fresh key
at or above the bound is appended at the end. -/
def setRef (refs : RefMap) (k : Nat) (v : List Nat) : RefMap :=
  match refs with
  | [] => [(k, v)]
  | (k0, v0) :: rest =>
      if k = k0 then (k, v) :: rest
      else if k < arrayIndexBound ∧ k < k0 then (k, v) :: (k0, v0) :: rest
      else (k0, v0) :: setRef rest k v

/-- The referral-tracking block of `/start` (lines 183-198; spec operation
`RecordReferral`): guarded by `if (isReferral && refId && refId !== uid)`
(so a referrer id parsed as `0` is falsy and skipped), then
`referrals[refId] = referrals[refId] || []` and, when `uid` is not already
in the array, a push plus the referrer notification.  The returned `Bool`
is whether a new edge was created (and the notification attempted). -/
def recordReferral (refs : RefMap) (refId uid : Nat) : Bool × RefMap :=
  if refId ≠ 0 ∧ refId ≠ uid then
    let l := listReferredBy refs refId
    if uid ∈ l then (false, refs)
    else (true, setRef refs refId (l ++ [uid]))
  else (false, refs)

/-- Stable insertion of one `(referrerId, count)` entry into a list sorted
by count descending: the new entry goes before the first entry whose count
it strictly exceeds or ties (the new entry comes from earlier in the input,
so placing it before equal counts is what stability of `Array.prototype.sort`
produces for the comparator `(a, b) => b.count - a.count`). -/
def leaderboardInsert (x : Nat × Nat) (l : List (Nat × Nat)) : List (Nat × Nat) :=
  match l with
  | [] => [x]
  | y :: ys => if y.2 ≤ x.2 then x :: y :: ys else y :: leaderboardInsert x ys

/-- Stable sort by count descending.  A stable comparison sort has a unique
output, so this insertion sort agrees with the engine sort used by
`.sort((a, b) => b.count - a.count)` (lines 301-304). -/
def leaderboardSort : List (Nat × Nat) → List (Nat × Nat)
  | [] => []
  | x :: xs => leaderboardInsert x (leaderboardSort xs)

/-- The `/leaderboard` pipeline (lines 300-304; spec operation
`TopReferrers`): map each referrer to its edge count, stable-sort by count
descending, truncate.  The bot calls it with `limit = 10` (`.slice(0, 10)`);
the limit is a parameter here. -/
def topReferrers (refs : RefMap) (limit : Nat) : List (Nat × Nat) :=
  (leaderboardSort (refs.map (fun kv => (kv.1, kv.2.length)))).take limit

/-- Enumeration-order constraint between two keyed entries: whenever the
later key is array-index-sized the earlier key is strictly smaller (so
array-index keys are ascending and no string-sized key precedes one), and
distinct entries never share a key.  Entries whose later key is at or above
`arrayIndexBound` are only constrained to be distinct — they sit in
insertion order. -/
def KeyOrder (a b : Nat × Nat) : Prop :=
  (b.1 < arrayIndexBound → a.1 < b.1) ∧ a.1 ≠ b.1

instance (a b : Nat × Nat) : Decidable (KeyOrder a b) := by
  unfold KeyOrder
  infer_instance

/-- Well-formedness of the `referrals` object model: the entries stand in
ECMAScript enumeration order — ascending array-index-sized keys first, then
larger keys in insertion order, all keys distinct. -/
def RefWF (refs : RefMap) : Prop :=
  refs.Pairwise (fun a b => KeyOrder (a.1, 0) (b.1, 0))

instance (refs : RefMap) : Decidable (RefWF refs) := by
  unfold RefWF
  infer_instance

/-- Ordering claim C7 asserts of the leaderboard: counts strictly
descending, or equal counts with referrer ids strictly ascending. -/
def LeaderboardOrder (a b : Nat × Nat) : Prop :=
  b.2 < a.2 ∨ (a.2 = b.2 ∧ a.1 < b.1)

instance (a b : Nat × Nat) : Decidable (LeaderboardOrder a b) := by
  unfold LeaderboardOrder
  infer_instance

/-- Identity shuffle: one concrete permutation the engine sort can
produce. -/
def idShuffle : List Nat → List Nat := fun l => l

/-- Resolver modelling `getChat` failing (or returning a chat without
username and first name) for every user. -/
def noResolve : Nat → Option ChatInfo := fun _ => none

/-- Resolver modelling `getChat(7)` returning a chat whose username is
`alice`. -/
def resolveAlice : Nat → Option ChatInfo :=
  fun u => if u = 7 then some ⟨some "alice", none⟩ else none

/-- The raw selected user ids carried by a `/draw` reply, empty for
non-success replies. -/
def selectedOf : DrawResult → List Nat
  | .success _ sel _ => sel
  | _ => []

/-- Whether a `/draw` reply announces winners. -/
def isSuccess : DrawResult → Bool
  | .success _ _ _ => true
  | _ => false

/-! ## Helper lemmas -/

theorem lookup_setPart_self (parts : PartMap) (id : String) (l : List Nat) :
    List.lookup id (setPart parts id l) = some l := by
  induction parts with
  | nil => simp [setPart, List.lookup]
  | cons kv rest ih =>
    obtain ⟨k, v⟩ := kv
    by_cases hk : k = id
    · simp [setPart, hk, List.lookup]
    · have hbeq : (id == k) = false := by
        simp [Ne.symm hk]
      simp [setPart, hk, List.lookup, hbeq, ih]

theorem listParts_setPart_self (parts : PartMap) (id : String) (l : List Nat) :
    listParts (setPart parts id l) id = l := by
  simp [listParts, lookup_setPart_self]

theorem join_already (draws : List DrawRec) (parts : PartMap) (uid : Nat)
    (a : DrawRec) (hfind : draws.find? (fun d => d.active) = some a)
    (hmem : uid ∈ listParts parts a.id) :
    join draws parts uid = (.alreadyJoined, parts) := by
  simp [join, hfind, hmem]

theorem joinSeq_already (draws : List DrawRec) (parts : PartMap) (uid : Nat)
    (a : DrawRec) (n : Nat) (hfind : draws.find? (fun d => d.active) = some a)
    (hmem : uid ∈ listParts parts a.id) :
    joinSeq draws parts uid n = (List.replicate n .alreadyJoined, parts) := by
  induction n with
  | zero => simp [joinSeq]
  | succ m ih => simp [joinSeq, join_already draws parts uid a hfind hmem, ih,
      List.replicate_succ]

theorem closeFirstActive_split (draws : List DrawRec) (a : DrawRec)
    (h : draws.find? (fun d => d.active) = some a) :
    ∃ l1 l2, draws = l1 ++ a :: l2 ∧ (∀ d ∈ l1, d.active = false) ∧
      closeFirstActive draws = l1 ++ { a with active := false } :: l2 := by
  induction draws with
  | nil => simp [List.find?] at h
  | cons d rest ih =>
    by_cases hd : d.active
    · rw [List.find?_cons_of_pos _ hd] at h
      obtain rfl : d = a := by simpa using h
      exact ⟨[], rest, rfl, by simp, by simp [closeFirstActive, hd]⟩
    · rw [List.find?_cons_of_neg _ (by simpa using hd)] at h
      obtain ⟨l1, l2, h1, h2, h3⟩ := ih h
      refine ⟨d :: l1, l2, by simp [h1], ?_, ?_⟩
      · intro e he
        rcases List.mem_cons.mp he with rfl | he2
        · simpa using hd
        · exact h2 e he2
      · simp [closeFirstActive, hd, h3]

theorem mem_setRef (refs : RefMap) (k : Nat) (v : List Nat)
    (e : Nat × List Nat) (he : e ∈ setRef refs k v) :
    e = (k, v) ∨ e ∈ refs := by
  induction refs with
  | nil => simpa [setRef] using he
  | cons kv rest ih =>
    obtain ⟨k0, v0⟩ := kv
    by_cases h1 : k = k0
    · rw [setRef, if_pos h1] at he
      rcases List.mem_cons.mp he with rfl | h2
      · exact Or.inl rfl
      · exact Or.inr (List.mem_cons_of_mem _ h2)
    · rw [setRef, if_neg h1] at he
      by_cases h2 : k < arrayIndexBound ∧ k < k0
      · rw [if_pos h2] at he
        rcases List.mem_cons.mp he with rfl | h3
        · exact Or.inl rfl
        · exact Or.inr h3
      · rw [if_neg h2] at he
        rcases List.mem_cons.mp he with rfl | h3
        · exact Or.inr (List.mem_cons_self _ _)
        · rcases ih h3 with h4 | h4
          · exact Or.inl h4
          · exact Or.inr (List.mem_cons_of_mem _ h4)

theorem lookup_setRef_self (refs : RefMap) (k : Nat) (v : List Nat) :
    List.lookup k (setRef refs k v) = some v := by
  induction refs with
  | nil => simp [setRef, List.lookup]
  | cons kv rest ih =>
    obtain ⟨k0, v0⟩ := kv
    by_cases h1 : k = k0
    · simp [setRef, h1, List.lookup]
    · by_cases h2 : k < arrayIndexBound ∧ k < k0
      · simp [setRef, h1, h2, List.lookup]
      · have hbeq : (k == k0) = false := by
          simp [h1]
        simp [setRef, h1, h2, List.lookup, hbeq, ih]

theorem setRef_wf (refs : RefMap) (k : Nat) (v : List Nat)
    (hwf : RefWF refs) : RefWF (setRef refs k v) := by
  induction refs with
  | nil => simp [setRef, RefWF]
  | cons kv rest ih =>
    obtain ⟨k0, v0⟩ := kv
    rw [RefWF, List.pairwise_cons] at hwf
    obtain ⟨hk0, hrest⟩ := hwf
    by_cases h1 : k = k0
    · rw [RefWF, setRef, if_pos h1, List.pairwise_cons]
      refine ⟨?_, hrest⟩
      intro e he
      have := hk0 e he
      rw [KeyOrder] at this ⊢
      simpa [h1] using this
    · by_cases h2 : k < arrayIndexBound ∧ k < k0
      · rw [RefWF, setRef, if_neg h1, if_pos h2, List.pairwise_cons]
        refine ⟨?_, List.Pairwise.cons hk0 hrest⟩
        intro e he
        rcases List.mem_cons.mp he with rfl | h3
        · exact ⟨fun _ => h2.2, fun hEq => h1 hEq⟩
        · have he2 := hk0 e h3
          rw [KeyOrder] at he2 ⊢
          constructor
          · intro hsmall
            exact lt_trans h2.2 (he2.1 hsmall)
          · intro hEq
            by_cases hsmall : e.1 < arrayIndexBound
            · have := he2.1 hsmall
              omega
            · have hk : k < arrayIndexBound := h2.1
              omega
      · rw [RefWF, setRef, if_neg h1, if_neg h2, List.pairwise_cons]
        refine ⟨?_, ih hrest⟩
        intro e he
        rcases mem_setRef rest k v e he with rfl | h3
        · rw [KeyOrder]
          constructor
          · intro hsmall
            simp only [not_and, not_lt] at h2
            exact lt_of_le_of_ne (h2 hsmall) (Ne.symm h1)
          · exact fun hEq => h1 hEq.symm
        · exact hk0 e h3

theorem lookup_mem {refs : RefMap} {k : Nat} {v : List Nat}
    (h : List.lookup k refs = some v) : (k, v) ∈ refs := by
  induction refs with
  | nil => simp [List.lookup] at h
  | cons kv rest ih =>
    obtain ⟨k0, v0⟩ := kv
    by_cases h1 : k = k0
    · have hbeq : (k == k0) = true := by
        simp [h1]
      rw [List.lookup, hbeq] at h
      obtain rfl : v0 = v := by simpa using h
      simp [h1]
    · have hbeq : (k == k0) = false := by
        simp [h1]
      rw [List.lookup, hbeq] at h
      exact List.mem_cons_of_mem _ (ih h)

theorem listReferredBy_nodup (refs : RefMap) (k : Nat)
    (hnd : ∀ kv ∈ refs, kv.2.Nodup) : (listReferredBy refs k).Nodup := by
  rw [listReferredBy]
  cases hl : List.lookup k refs with
  | none => simp
  | some v =>
    have := hnd (k, v) (lookup_mem hl)
    simpa using this

/-! ## Claim C1 -/

/-- Claim C1 (status: code_bug).  The `/newdraw` command performs no check
for an existing Active draw: starting from a state with one active draw,
creating a second draw succeeds and leaves two draws with `active = true`
at once, instead of failing with `ConflictError` as the spec requires.
(The spec itself flags this: "source allowed multiple by accident".)  The
MongoDB variant (lines 883-890) has the same omission. -/
theorem newdraw_ignores_active_conflict :
    (newdraw [⟨"1000", "Alpha", true, []⟩] "2000" "Beta").1
      = NewDrawResult.created "2000" ∧
    (newdraw [⟨"1000", "Alpha", true, []⟩] "2000" "Beta").2
      = [⟨"1000", "Alpha", true, []⟩, ⟨"2000", "Beta", true, []⟩] ∧
    countActive (newdraw [⟨"1000", "Alpha", true, []⟩] "2000" "Beta").2 = 2 := by
  refine ⟨rfl, ?_, rfl⟩
  simp [newdraw, setDraw]

/-! ## Claim C4 -/

/-- Claim C4 (status: confirmed).  Against a fixed active draw, a sequence
of `n + 1` `/join` calls by the same user yields `joined` exactly on the
first call and `alreadyJoined` on every later call, and the participant
array for that draw gains exactly the one entry appended by the first call.
The MongoDB variant (lines 813-821) checks and creates the same way. -/
theorem join_first_succeeds_rest_fail (draws : List DrawRec) (parts : PartMap)
    (uid : Nat) (a : DrawRec) (n : Nat)
    (hfind : draws.find? (fun d => d.active) = some a)
    (hnot : uid ∉ listParts parts a.id) :
    (joinSeq draws parts uid (n + 1)).1
      = JoinResult.joined :: List.replicate n JoinResult.alreadyJoined ∧
    listParts (joinSeq draws parts uid (n + 1)).2 a.id
      = listParts parts a.id ++ [uid] := by
  have hstep : join draws parts uid
      = (.joined, setPart parts a.id (listParts parts a.id ++ [uid])) := by
    simp [join, hfind, hnot]
  have hmem2 : uid ∈ listParts (setPart parts a.id (listParts parts a.id ++ [uid])) a.id := by
    rw [listParts_setPart_self]
    simp
  have hrest := joinSeq_already draws
    (setPart parts a.id (listParts parts a.id ++ [uid])) uid a n hfind hmem2
  constructor
  · simp [joinSeq, hstep, hrest]
  · simp [joinSeq, hstep, hrest, listParts_setPart_self]

/-- Witness for C4 at a concrete state: one active draw, fresh user 5,
three consecutive joins. -/
theorem join_first_succeeds_rest_fail_witness :
    (([⟨"1", "T", true, []⟩] : List DrawRec).find? (fun d => d.active)
        = some ⟨"1", "T", true, []⟩ ∧
      5 ∉ listParts [] (DrawRec.mk "1" "T" true []).id) ∧
    ((joinSeq [⟨"1", "T", true, []⟩] [] 5 (2 + 1)).1
        = JoinResult.joined :: List.replicate 2 JoinResult.alreadyJoined ∧
      listParts (joinSeq [⟨"1", "T", true, []⟩] [] 5 (2 + 1)).2
          (DrawRec.mk "1" "T" true []).id
        = listParts [] (DrawRec.mk "1" "T" true []).id ++ [5]) :=
  ⟨⟨by decide, by decide⟩,
    join_first_succeeds_rest_fail [⟨"1", "T", true, []⟩] [] 5 ⟨"1", "T", true, []⟩ 2
      (by decide) (by decide)⟩

/-! ## Claim C2 -/

/-- Counterexample to claim C2.  The shuffle
`entries.slice().sort(() => 0.5 - Math.random())` draws its randomness from
finitely many `Math.random` outcomes; each outcome is a 53-bit dyadic
rational, so any shuffle procedure is a function of a finite tape of fair
bits, and every event has a dyadic probability m / 2^k.  Uniform selection
of one winner out of the three participants 1, 2, 3 would require each
singleton event to have probability 1/3, i.e. (number of tapes selecting
that winner) * 3 = 2^k — impossible, because 3 does not divide any power
of 2.  Hence NO tape-driven shuffle (the engine sort included) makes each
size-1 subset equally likely, refuting the claimed uniform-without-
replacement sampling. -/
theorem drawWinners_uniformity_impossible :
    ¬ ∃ (k : Nat) (sh : (Fin k → Bool) → List Nat),
      (∀ t, (sh t).Perm [1, 2, 3]) ∧
      (∀ x ∈ ([1, 2, 3] : List Nat),
        (Finset.univ.filter (fun t => winnersOfShuffle (sh t) 1 = [x])).card * 3
          = 2 ^ k) := by
  rintro ⟨k, sh, hperm, huni⟩
  have h1 := huni 1 (by simp)
  have hdvd : 3 ∣ 2 ^ k :=
    ⟨(Finset.univ.filter (fun t => winnersOfShuffle (sh t) 1 = [1])).card, by omega⟩
  have h2 : (3 : Nat) ∣ 2 := Nat.Prime.dvd_of_dvd_pow Nat.prime_three hdvd
  exact absurd h2 (by decide)

/-- Claim C2 (status: corrected).  The half of the claim the code does
satisfy: whatever permutation the random-comparator sort produces, the
selected winners are a prefix of it of length `min(count, participantCount)`
— so they are pairwise distinct participants and no participant is selected
twice — but the distribution over them is not uniform (see the
counterexample). -/
theorem drawWinners_distinct_prefix (entries shuffled : List Nat) (count : Int)
    (hperm : shuffled.Perm entries) (hnd : entries.Nodup) (hc : 0 ≤ count) :
    (winnersOfShuffle shuffled count).Nodup ∧
    (winnersOfShuffle shuffled count).length = min count.toNat entries.length ∧
    ∀ x ∈ winnersOfShuffle shuffled count, x ∈ entries := by
  have hlen : shuffled.length = entries.length := hperm.length_eq
  have hnonneg : ¬ (min count (shuffled.length : Int) < 0) := by
    omega
  have hslice : winnersOfShuffle shuffled count
      = shuffled.take (min count (shuffled.length : Int)).toNat := by
    rw [winnersOfShuffle, jsSlice0, if_neg hnonneg]
  have hsub : List.Sublist (winnersOfShuffle shuffled count) shuffled := by
    rw [hslice]
    exact List.take_sublist _ _
  refine ⟨?_, ?_, ?_⟩
  · exact (hperm.nodup_iff.mpr hnd).sublist hsub
  · rw [hslice, List.length_take, hlen]
    omega
  · intro x hx
    exact hperm.subset (hsub.subset hx)

/-- Witness for C2 at entries `[1, 2]` shuffled to `[2, 1]`, count 1. -/
theorem drawWinners_distinct_prefix_witness :
    (([2, 1] : List Nat).Perm [1, 2] ∧ ([1, 2] : List Nat).Nodup ∧ (0 : Int) ≤ 1) ∧
    ((winnersOfShuffle [2, 1] 1).Nodup ∧
      (winnersOfShuffle [2, 1] 1).length = min (Int.toNat 1) ([1, 2] : List Nat).length ∧
      ∀ x ∈ winnersOfShuffle [2, 1] 1, x ∈ ([1, 2] : List Nat)) :=
  ⟨⟨by decide, by decide, by decide⟩,
    drawWinners_distinct_prefix [1, 2] [2, 1] 1 (by decide) (by decide) (by decide)⟩

/-! ## Claim C3 -/

/-- Counterexample to claim C3.  With participant 7 whose chat resolves to
username `alice`, the `/draw` command persists `["@alice"]` as the draw's
winners — the resolved display mention, not the raw userId string `"7"`.
The winner-selection code resolves every selected userId through
`bot.api.getChat` BEFORE persisting (lines 354-366; MongoDB variant lines
913-926). -/
theorem drawWinners_persist_mentions :
    drawCmd [⟨"1", "T", false, []⟩] [("1", [7])] (some (some 1)) idShuffle resolveAlice
      = (.success "1" [7] ["@alice"], [⟨"1", "T", false, ["@alice"]⟩]) ∧
    ["@alice"] ≠ (([7] : List Nat).map (fun u => toString u)) := by
  constructor
  · decide
  · decide

/-- Claim C3 (status: corrected).  What every successful `/draw` persists is
`selected.map (mentionFor res)`: each selected userId passed through the
external chat resolver (username, else first name with id, else the raw id
string).  Raw ids are persisted only as the resolver's fallback. -/
theorem drawWinners_persist_resolved (draws : List DrawRec) (parts : PartMap)
    (arg : Option (Option Int)) (sh : List Nat → List Nat)
    (res : Nat → Option ChatInfo) (tid : String) (sel : List Nat)
    (men : List String)
    (h : (drawCmd draws parts arg sh res).1 = .success tid sel men) :
    men = sel.map (mentionFor res) ∧
    ∀ d ∈ (drawCmd draws parts arg sh res).2, d.id = tid → d.winners = men := by
  cases hfind : draws.reverse.find? (fun d => !d.active && d.winners.isEmpty) with
  | none =>
    rw [drawCmd] at h
    simp [hfind] at h
  | some target =>
    by_cases hent : (listParts parts target.id).isEmpty = true
    · rw [drawCmd] at h
      simp [hfind, hent] at h
    · have hpair : drawCmd draws parts arg sh res
          = (.success target.id
              (winnersOfShuffle (sh (listParts parts target.id)) (parseCount arg))
              ((winnersOfShuffle (sh (listParts parts target.id)) (parseCount arg)).map
                (mentionFor res)),
            updateWinners draws target.id
              ((winnersOfShuffle (sh (listParts parts target.id)) (parseCount arg)).map
                (mentionFor res))) := by
        rw [drawCmd]
        simp [hfind, hent]
      rw [hpair] at h
      simp only [DrawResult.success.injEq] at h
      obtain ⟨htid, hsel, hmen⟩ := h
      subst htid
      subst hsel
      subst hmen
      refine ⟨rfl, ?_⟩
      rw [hpair]
      intro d hd hid
      simp only [updateWinners, List.mem_map] at hd
      obtain ⟨d0, hd0, hd0eq⟩ := hd
      by_cases hcase : d0.id = target.id
      · rw [if_pos hcase] at hd0eq
        rw [← hd0eq]
      · rw [if_neg hcase] at hd0eq
        subst hd0eq
        exact absurd hid hcase

/-- Witness for C3: the same concrete run as the counterexample, fed through
the general theorem. -/
theorem drawWinners_persist_resolved_witness :
    ((drawCmd [⟨"1", "T", false, []⟩] [("1", [7])] (some (some 1)) idShuffle
        resolveAlice).1 = .success "1" [7] ["@alice"]) ∧
    (["@alice"] = ([7] : List Nat).map (mentionFor resolveAlice) ∧
      ∀ d ∈ (drawCmd [⟨"1", "T", false, []⟩] [("1", [7])] (some (some 1)) idShuffle
          resolveAlice).2, d.id = "1" → d.winners = ["@alice"]) :=
  ⟨by decide,
    drawWinners_persist_resolved [⟨"1", "T", false, []⟩] [("1", [7])]
      (some (some 1)) idShuffle resolveAlice "1" [7] ["@alice"] (by decide)⟩

/-! ## Claim C5 -/

/-- Counterexample to claim C5.  The same draw can be drawn successfully
TWICE: `/draw -5` on a closed draw with 2 participants succeeds while
persisting an EMPTY winners list (`slice(0, Math.min(-5, 2))` is `[]`), so
the draw still matches the target predicate
`!d.active && d.winners.length === 0` and the next `/draw 1` — run on the
first call's post-state — succeeds on the very same draw, writing its
winners.  So "DrawWinners succeeds on it exactly once" fails, and no second
call ever fails with the spec's `InvalidStateError` either: once winners
are non-empty the command finds no target and replies "No closed draw to
pick winners from" (the spec taxonomy's `NotFoundError`). -/
theorem drawCmd_same_draw_two_successes :
    drawCmd [⟨"1", "T", false, []⟩] [("1", [1, 2])] (some (some (-5))) idShuffle
        noResolve
      = (DrawResult.success "1" [] [], [⟨"1", "T", false, []⟩]) ∧
    drawCmd (drawCmd [⟨"1", "T", false, []⟩] [("1", [1, 2])] (some (some (-5)))
          idShuffle noResolve).2 [("1", [1, 2])] (some (some 1)) idShuffle noResolve
      = (DrawResult.success "1" [1] ["1"], [⟨"1", "T", false, ["1"]⟩]) ∧
    drawCmd [⟨"1", "T", false, ["1"]⟩] [("1", [1, 2])] (some (some 1)) idShuffle
        noResolve
      = (DrawResult.noClosedDraw, [⟨"1", "T", false, ["1"]⟩]) ∧
    DrawResult.noClosedDraw ≠ DrawResult.invalidStateSpec := by
  refine ⟨by decide, by decide, by decide, by decide⟩

/-- Claim C5 (status: corrected).  What the code guarantees is conditional
on non-empty persisted winners, not on a prior success: a draw whose
`winners` list is non-empty can never again be the target of `/draw` — the
command either fails or succeeds on a DIFFERENT draw, and the drawn draw
survives in the post-state unchanged, winners included — and when nothing
is eligible the reply is the no-closed-draw (NotFound-style) one, never
`InvalidStateError`.  "Succeeds exactly once" is NOT salvageable: a
negative-count call succeeds while persisting empty winners, leaving the
draw targetable again (see the counterexample). -/
theorem drawCmd_never_retargets_drawn (draws : List DrawRec) (parts : PartMap)
    (arg : Option (Option Int)) (sh : List Nat → List Nat)
    (res : Nat → Option ChatInfo) (d : DrawRec)
    (hids : (draws.map (fun x => x.id)).Nodup)
    (hd : d ∈ draws) (hw : d.winners ≠ []) :
    d ∈ (drawCmd draws parts arg sh res).2 ∧
    ∀ sel men, (drawCmd draws parts arg sh res).1
      ≠ DrawResult.success d.id sel men := by
  cases hfind : draws.reverse.find? (fun x => !x.active && x.winners.isEmpty) with
  | none =>
    constructor
    · rw [drawCmd]
      simpa [hfind] using hd
    · intro sel men
      rw [drawCmd]
      simp [hfind]
  | some target =>
    have htw : target.winners = [] := by
      have := List.find?_some hfind
      simp only [Bool.and_eq_true, List.isEmpty_iff] at this
      exact this.2
    have htmem : target ∈ draws :=
      List.mem_reverse.mp (List.mem_of_find?_eq_some hfind)
    have hne : d.id ≠ target.id := by
      intro hidEq
      have : d = target :=
        List.inj_on_of_nodup_map hids hd htmem hidEq
      rw [this, htw] at hw
      exact hw rfl
    by_cases hent : (listParts parts target.id).isEmpty = true
    · constructor
      · rw [drawCmd]
        simpa [hfind, hent] using hd
      · intro sel men
        rw [drawCmd]
        simp [hfind, hent]
    · have hpair : drawCmd draws parts arg sh res
          = (.success target.id
              (winnersOfShuffle (sh (listParts parts target.id)) (parseCount arg))
              ((winnersOfShuffle (sh (listParts parts target.id)) (parseCount arg)).map
                (mentionFor res)),
            updateWinners draws target.id
              ((winnersOfShuffle (sh (listParts parts target.id)) (parseCount arg)).map
                (mentionFor res))) := by
        rw [drawCmd]
        simp [hfind, hent]
      constructor
      · rw [hpair]
        simp only [updateWinners, List.mem_map]
        exact ⟨d, hd, by rw [if_neg hne]⟩
      · intro sel men
        rw [hpair]
        simp only [ne_eq, DrawResult.success.injEq, not_and]
        intro hEq
        exact absurd hEq.symm hne

/-- Witness for C5: an already-drawn draw and a second closed draw; the
command succeeds on the second draw without touching the first. -/
theorem drawCmd_never_retargets_drawn_witness :
    ((([⟨"1", "Done", false, ["@w"]⟩, ⟨"2", "C", false, []⟩] : List DrawRec).map
        (fun x => x.id)).Nodup ∧
      (⟨"1", "Done", false, ["@w"]⟩ : DrawRec)
        ∈ ([⟨"1", "Done", false, ["@w"]⟩, ⟨"2", "C", false, []⟩] : List DrawRec) ∧
      (DrawRec.mk "1" "Done" false ["@w"]).winners ≠ []) ∧
    ((⟨"1", "Done", false, ["@w"]⟩ : DrawRec)
        ∈ (drawCmd [⟨"1", "Done", false, ["@w"]⟩, ⟨"2", "C", false, []⟩]
            [("2", [5])] (some (some 1)) idShuffle noResolve).2 ∧
      ∀ sel men,
        (drawCmd [⟨"1", "Done", false, ["@w"]⟩, ⟨"2", "C", false, []⟩]
            [("2", [5])] (some (some 1)) idShuffle noResolve).1
          ≠ DrawResult.success (DrawRec.mk "1" "Done" false ["@w"]).id sel men) :=
  ⟨⟨by decide, by decide, by decide⟩,
    drawCmd_never_retargets_drawn
      [⟨"1", "Done", false, ["@w"]⟩, ⟨"2", "C", false, []⟩] [("2", [5])]
      (some (some 1)) idShuffle noResolve ⟨"1", "Done", false, ["@w"]⟩
      (by decide) (by decide) (by decide)⟩

/-! ## Claim C9 -/

/-- Counterexample to claim C9.  `const count = Number(parts[1]) || 1` only
defaults falsy values (`NaN`, `0`); a negative count such as `/draw -2`
passes through, and `slice(0, Math.min(-2, 5))` takes end index `-2`
relative to the length: with 5 participants the command selects 3 winners,
not 1. -/
theorem draw_negative_count_not_defaulted :
    (drawCmd [⟨"1", "T", false, []⟩] [("1", [1, 2, 3, 4, 5])] (some (some (-2)))
        idShuffle noResolve).1
      = DrawResult.success "1" [1, 2, 3] ["1", "2", "3"] ∧
    (selectedOf (drawCmd [⟨"1", "T", false, []⟩] [("1", [1, 2, 3, 4, 5])]
        (some (some (-2))) idShuffle noResolve).1).length = 3 ∧
    (3 : Nat) ≠ 1 := by
  refine ⟨by decide, by decide, by decide⟩

/-- Claim C9 (status: corrected).  A missing, non-numeric or zero count
argument is defaulted to 1 and the command then selects exactly one winner;
but a negative integer count `c` is NOT defaulted: it reaches
`slice(0, min(c, n))` and selects `max(n + c, 0)` winners from the `n`
participants. -/
theorem draw_count_defaulting (draws : List DrawRec) (parts : PartMap)
    (sh : List Nat → List Nat) (res : Nat → Option ChatInfo)
    (target : DrawRec) (c : Int)
    (hfind : draws.reverse.find? (fun d => !d.active && d.winners.isEmpty)
      = some target)
    (hne : listParts parts target.id ≠ [])
    (hsh : ∀ l, (sh l).Perm l) :
    (∀ arg ∈ ([none, some none, some (some 0)] : List (Option (Option Int))),
      isSuccess (drawCmd draws parts arg sh res).1 = true ∧
      (selectedOf (drawCmd draws parts arg sh res).1).length = 1) ∧
    (c < 0 →
      (selectedOf (drawCmd draws parts (some (some c)) sh res).1).length
        = ((listParts parts target.id).length + c).toNat) := by
  have hentF : (listParts parts target.id).isEmpty = false := by
    simpa [List.isEmpty_iff] using hne
  have hlen : (sh (listParts parts target.id)).length
      = (listParts parts target.id).length := (hsh _).length_eq
  have hlen1 : 1 ≤ (listParts parts target.id).length :=
    List.length_pos.mpr hne
  have hgen : ∀ arg, drawCmd draws parts arg sh res
      = (.success target.id
          (winnersOfShuffle (sh (listParts parts target.id)) (parseCount arg))
          ((winnersOfShuffle (sh (listParts parts target.id)) (parseCount arg)).map
            (mentionFor res)),
        updateWinners draws target.id
          ((winnersOfShuffle (sh (listParts parts target.id)) (parseCount arg)).map
            (mentionFor res))) := by
    intro arg
    rw [drawCmd]
    simp [hfind, hentF]
  constructor
  · intro arg harg
    have hcnt : parseCount arg = 1 := by
      simp only [List.mem_cons, List.mem_singleton, List.not_mem_nil, or_false] at harg
      rcases harg with rfl | rfl | rfl
      · rfl
      · rfl
      · rfl
    rw [hgen arg, hcnt]
    refine ⟨rfl, ?_⟩
    rw [selectedOf, winnersOfShuffle, jsSlice0, hlen]
    have hmin : min (1 : Int) ((listParts parts target.id).length : Int) = 1 := by
      omega
    rw [hmin, if_neg (by omega)]
    rw [List.length_take, hlen]
    omega
  · intro hcneg
    have hcnt : parseCount (some (some c)) = c := by
      rw [parseCount, if_neg (by omega)]
    rw [hgen (some (some c)), hcnt]
    rw [selectedOf, winnersOfShuffle, jsSlice0, hlen]
    have hmin : min c ((listParts parts target.id).length : Int) = c := by
      omega
    rw [hmin, if_pos hcneg]
    rw [List.length_take, hlen]
    omega

/-- Witness for C9: two participants, count `-5` yields zero winners and
the defaulting arguments yield one. -/
theorem draw_count_defaulting_witness :
    ((([⟨"1", "T", false, []⟩] : List DrawRec).reverse.find?
        (fun d => !d.active && d.winners.isEmpty) = some ⟨"1", "T", false, []⟩ ∧
      listParts [("1", [1, 2])] (DrawRec.mk "1" "T" false []).id ≠ [] ∧
      ∀ l, (idShuffle l).Perm l) ∧
    ((∀ arg ∈ ([none, some none, some (some 0)] : List (Option (Option Int))),
        isSuccess (drawCmd [⟨"1", "T", false, []⟩] [("1", [1, 2])] arg idShuffle
          noResolve).1 = true ∧
        (selectedOf (drawCmd [⟨"1", "T", false, []⟩] [("1", [1, 2])] arg idShuffle
          noResolve).1).length = 1) ∧
      ((-5 : Int) < 0 →
        (selectedOf (drawCmd [⟨"1", "T", false, []⟩] [("1", [1, 2])]
            (some (some (-5))) idShuffle noResolve).1).length
          = ((listParts [("1", [1, 2])] (DrawRec.mk "1" "T" false []).id).length
              + (-5 : Int)).toNat))) :=
  ⟨⟨by decide, by decide, fun l => List.Perm.refl l⟩,
    draw_count_defaulting [⟨"1", "T", false, []⟩] [("1", [1, 2])] idShuffle
      noResolve ⟨"1", "T", false, []⟩ (-5) (by decide) (by decide)
      (fun l => List.Perm.refl l)⟩

/-! ## Claim C6 -/

/-- Counterexample to claim C6.  Referral deduplication is per
(referrerId, referredId) pair, not per referredId: after user 5 is recorded
as referred by referrer 1, a `/start` with referrer 2 is NOT silently
ignored — it creates a second edge (`true` = edge created, notification
attempted), and user 5 then appears under two referrers.  The MongoDB
variant (lines 755-768) queries `findOne({ referrerId, referredId })`, the
same per-pair check. -/
theorem referral_second_referrer_not_ignored :
    recordReferral (recordReferral [] 1 5).2 2 5 = (true, [(1, [5]), (2, [5])]) ∧
    ((recordReferral (recordReferral [] 1 5).2 2 5).2.filter
        (fun kv => 5 ∈ kv.2)).length = 2 := by
  decide

/-- Claim C6 (status: corrected).  What the code does maintain is per-pair
uniqueness: `recordReferral` preserves the well-formed key order and keeps
every referrer's referred list duplicate-free (so each (referrerId,
referredId) edge exists at most once), and a repeated claim under the SAME
referrer is silently ignored, leaving the state unchanged. -/
theorem recordReferral_pair_unique (refs : RefMap) (refId uid : Nat)
    (hwf : RefWF refs) (hnd : ∀ kv ∈ refs, kv.2.Nodup) :
    RefWF (recordReferral refs refId uid).2 ∧
    (∀ kv ∈ (recordReferral refs refId uid).2, kv.2.Nodup) ∧
    (uid ∈ listReferredBy refs refId →
      recordReferral refs refId uid = (false, refs)) := by
  by_cases hg : refId ≠ 0 ∧ refId ≠ uid
  · by_cases hmem : uid ∈ listReferredBy refs refId
    · rw [recordReferral, if_pos hg, if_pos hmem]
      exact ⟨hwf, hnd, fun _ => rfl⟩
    · rw [recordReferral, if_pos hg, if_neg hmem]
      refine ⟨setRef_wf refs refId _ hwf, ?_, fun h => absurd h hmem⟩
      intro kv hkv
      rcases mem_setRef refs refId _ kv hkv with rfl | h2
      · have hln : (listReferredBy refs refId).Nodup := listReferredBy_nodup refs refId hnd
        simpa [List.nodup_append] using ⟨hln, hmem⟩
      · exact hnd kv h2
  · rw [recordReferral, if_neg hg]
    exact ⟨hwf, hnd, fun _ => rfl⟩

/-- Witness for C6: a state with two referrers, recording a fresh edge. -/
theorem recordReferral_pair_unique_witness :
    (RefWF [(1, [5, 6]), (3, [7])] ∧
      (∀ kv ∈ ([(1, [5, 6]), (3, [7])] : RefMap), kv.2.Nodup)) ∧
    (RefWF (recordReferral [(1, [5, 6]), (3, [7])] 3 6).2 ∧
      (∀ kv ∈ (recordReferral [(1, [5, 6]), (3, [7])] 3 6).2, kv.2.Nodup) ∧
      (6 ∈ listReferredBy [(1, [5, 6]), (3, [7])] 3 →
        recordReferral [(1, [5, 6]), (3, [7])] 3 6 = (false, [(1, [5, 6]), (3, [7])]))) :=
  ⟨⟨by decide, by decide⟩,
    recordReferral_pair_unique [(1, [5, 6]), (3, [7])] 3 6 (by decide) (by decide)⟩

/-! ## Claim C8 -/

/-- Counterexample to claim C8.  The guard
`if (isReferral && refId && refId !== uid)` treats a referrer id parsed as
`0` (`/start ref_0`) as falsy: although `0 ≠ 5` and no edge for the pair
exists, no edge is created, contradicting the claimed "if and only if". -/
theorem recordReferral_zero_referrer_rejected :
    recordReferral [] 0 5 = (false, []) ∧ (0 : Nat) ≠ 5 ∧
    5 ∉ listReferredBy [] 0 := by
  decide

/-- Claim C8 (status: corrected).  An edge is created if and only if the
referrer id is nonzero (truthy), distinct from the referred id, and the
pair has no edge yet; and calling the operation twice with the same valid
fresh pair leaves exactly one occurrence of the referred user in
`ListReferredBy` of the referrer. -/
theorem recordReferral_create_iff (refs : RefMap) (refId uid : Nat) :
    ((recordReferral refs refId uid).1 = true ↔
      refId ≠ 0 ∧ refId ≠ uid ∧ uid ∉ listReferredBy refs refId) ∧
    (refId ≠ 0 → refId ≠ uid → uid ∉ listReferredBy refs refId →
      List.count uid (listReferredBy
        (recordReferral (recordReferral refs refId uid).2 refId uid).2 refId) = 1) := by
  constructor
  · by_cases hg : refId ≠ 0 ∧ refId ≠ uid
    · by_cases hmem : uid ∈ listReferredBy refs refId
      · rw [recordReferral, if_pos hg, if_pos hmem]
        simp [hg.1, hg.2, hmem]
      · rw [recordReferral, if_pos hg, if_neg hmem]
        simp [hg.1, hg.2, hmem]
    · rw [recordReferral, if_neg hg]
      simp only [ne_eq, not_and_or, not_not] at hg
      rcases hg with h | h <;> simp [h]
  · intro h0 hne hmem
    have hg : refId ≠ 0 ∧ refId ≠ uid := ⟨h0, hne⟩
    have hfirst : (recordReferral refs refId uid).2
        = setRef refs refId (listReferredBy refs refId ++ [uid]) := by
      rw [recordReferral, if_pos hg, if_neg hmem]
    have hlist : listReferredBy (recordReferral refs refId uid).2 refId
        = listReferredBy refs refId ++ [uid] := by
      rw [hfirst, listReferredBy, lookup_setRef_self]
      rfl
    have hmem2 : uid ∈ listReferredBy (recordReferral refs refId uid).2 refId := by
      rw [hlist]
      simp
    have hsecond : recordReferral (recordReferral refs refId uid).2 refId uid
        = (false, (recordReferral refs refId uid).2) := by
      rw [recordReferral, if_pos hg, if_pos hmem2]
    rw [hsecond, hlist]
    have hzero : List.count uid (listReferredBy refs refId) = 0 :=
      List.count_eq_zero.mpr hmem
    simp [List.count_append, hzero]

/-- Witness for C8 at the fresh pair (1, 5) on the empty referral store. -/
theorem recordReferral_create_iff_witness :
    ((recordReferral [] 1 5).1 = true ↔
      (1 : Nat) ≠ 0 ∧ (1 : Nat) ≠ 5 ∧ 5 ∉ listReferredBy [] 1) ∧
    ((1 : Nat) ≠ 0 → (1 : Nat) ≠ 5 → 5 ∉ listReferredBy [] 1 →
      List.count 5 (listReferredBy
        (recordReferral (recordReferral [] 1 5).2 1 5).2 1) = 1) :=
  recordReferral_create_iff [] 1 5

/-! ## Claim C7 -/

theorem mem_leaderboardInsert (x z : Nat × Nat) (l : List (Nat × Nat))
    (hz : z ∈ leaderboardInsert x l) : z = x ∨ z ∈ l := by
  induction l with
  | nil => simpa [leaderboardInsert] using hz
  | cons y ys ih =>
    rw [leaderboardInsert] at hz
    by_cases hc : y.2 ≤ x.2
    · rw [if_pos hc] at hz
      rcases List.mem_cons.mp hz with rfl | h2
      · exact Or.inl rfl
      · exact Or.inr h2
    · rw [if_neg hc] at hz
      rcases List.mem_cons.mp hz with rfl | h2
      · exact Or.inr (List.mem_cons_self _ _)
      · rcases ih h2 with h3 | h3
        · exact Or.inl h3
        · exact Or.inr (List.mem_cons_of_mem _ h3)

theorem leaderboardInsert_pairwise (R : Nat × Nat → Nat × Nat → Prop)
    (x : Nat × Nat) (l : List (Nat × Nat)) (hR : ∀ y ∈ l, R x y)
    (hl : l.Pairwise (fun a b => b.2 < a.2 ∨ (a.2 = b.2 ∧ R a b))) :
    (leaderboardInsert x l).Pairwise (fun a b => b.2 < a.2 ∨ (a.2 = b.2 ∧ R a b)) := by
  induction l with
  | nil => simp [leaderboardInsert]
  | cons y ys ih =>
    rw [List.pairwise_cons] at hl
    obtain ⟨hy, hys⟩ := hl
    rw [leaderboardInsert]
    by_cases hc : y.2 ≤ x.2
    · rw [if_pos hc, List.pairwise_cons]
      refine ⟨?_, List.Pairwise.cons hy hys⟩
      intro z hzmem
      have hz2 : z.2 ≤ x.2 := by
        rcases List.mem_cons.mp hzmem with rfl | h2
        · exact hc
        · rcases hy z h2 with h3 | ⟨h3, h4⟩
          · omega
          · omega
      rcases lt_or_eq_of_le hz2 with h3 | h3
      · exact Or.inl h3
      · exact Or.inr ⟨h3.symm, hR z hzmem⟩
    · rw [if_neg hc, List.pairwise_cons]
      refine ⟨?_, ih (fun z hz => hR z (List.mem_cons_of_mem _ hz)) hys⟩
      intro z hzmem
      rcases mem_leaderboardInsert x z ys hzmem with rfl | h2
      · exact Or.inl (not_le.mp hc)
      · exact hy z h2

theorem mem_leaderboardSort (l : List (Nat × Nat)) (z : Nat × Nat)
    (hz : z ∈ leaderboardSort l) : z ∈ l := by
  induction l with
  | nil => simp [leaderboardSort] at hz
  | cons x xs ih =>
    rw [leaderboardSort] at hz
    rcases mem_leaderboardInsert x z (leaderboardSort xs) hz with rfl | h2
    · exact List.mem_cons_self _ _
    · exact List.mem_cons_of_mem _ (ih h2)

theorem leaderboardSort_pairwise (R : Nat × Nat → Nat × Nat → Prop)
    (l : List (Nat × Nat)) (hl : l.Pairwise R) :
    (leaderboardSort l).Pairwise (fun a b => b.2 < a.2 ∨ (a.2 = b.2 ∧ R a b)) := by
  induction l with
  | nil => simp [leaderboardSort]
  | cons x xs ih =>
    rw [List.pairwise_cons] at hl
    obtain ⟨hx, hxs⟩ := hl
    rw [leaderboardSort]
    exact leaderboardInsert_pairwise R x (leaderboardSort xs)
      (fun z hz => hx z (mem_leaderboardSort xs z hz)) (ih hxs)

/-- Counterexample to claim C7.  The ascending-referrerId tie-break fails
for referrer ids at or above `2^32 - 1` (modern Telegram user ids exceed
2^32, and the id comes from the user-controlled `ref_` payload anyway):
such ids are ordinary string keys of the `referrals` object, enumerated in
INSERTION order, and the stable count-only sort keeps that order for ties.
Recording referrer 6000000000 before referrer 5000000000 (one edge each,
built from the empty store by the `/start` tracking itself) makes the
leaderboard list the tied referrers in DESCENDING id order.  The cited
MongoDB variant is no better: its `$sort: { count: -1 }` has no tie-break
key at all. -/
theorem topReferrers_tie_not_ascending_for_large_ids :
    (recordReferral (recordReferral [] 6000000000 11).2 5000000000 12).2
      = [(6000000000, [11]), (5000000000, [12])] ∧
    RefWF [(6000000000, [11]), (5000000000, [12])] ∧
    topReferrers [(6000000000, [11]), (5000000000, [12])] 2
      = [(6000000000, 1), (5000000000, 1)] ∧
    ¬ (topReferrers [(6000000000, [11]), (5000000000, [12])] 2).Pairwise
        LeaderboardOrder := by
  refine ⟨by decide, by decide, by decide, by decide⟩

/-- Claim C7 (status: corrected).  For every limit and every well-formed
referral store, the `/leaderboard` pipeline returns at most `limit`
`(referrerId, count)` pairs, sorted by count descending, and an empty store
yields an empty list rather than an error; equal-count entries keep the
enumeration order of the `referrals` object (`KeyOrder`) — ascending
referrerId when the later id is array-index-sized (below 2^32 - 1), but
only insertion order between distinct larger ids, so the claimed universal
ascending tie-break does not hold (see the counterexample). -/
theorem topReferrers_sorted_bounded (refs : RefMap) (limit : Nat)
    (hwf : RefWF refs) :
    (topReferrers refs limit).length ≤ limit ∧
    (topReferrers refs limit).Pairwise
      (fun a b => b.2 < a.2 ∨ (a.2 = b.2 ∧ KeyOrder a b)) ∧
    (refs = [] → topReferrers refs limit = []) := by
  refine ⟨?_, ?_, ?_⟩
  · exact List.length_take_le _ _
  · have hkeys : (refs.map (fun kv => (kv.1, kv.2.length))).Pairwise KeyOrder := by
      exact List.Pairwise.map _ (fun a b h => h) hwf
    exact (leaderboardSort_pairwise KeyOrder _ hkeys).sublist (List.take_sublist _ _)
  · rintro rfl
    simp [topReferrers, leaderboardSort]

/-- Witness for C7: three referrers with counts 2, 2, 1 and limit 2. -/
theorem topReferrers_sorted_bounded_witness :
    RefWF [(1, [5, 6]), (2, [7, 8]), (4, [9])] ∧
    ((topReferrers [(1, [5, 6]), (2, [7, 8]), (4, [9])] 2).length ≤ 2 ∧
      (topReferrers [(1, [5, 6]), (2, [7, 8]), (4, [9])] 2).Pairwise
        (fun a b => b.2 < a.2 ∨ (a.2 = b.2 ∧ KeyOrder a b)) ∧
      (([(1, [5, 6]), (2, [7, 8]), (4, [9])] : RefMap) = [] →
        topReferrers [(1, [5, 6]), (2, [7, 8]), (4, [9])] 2 = [])) :=
  ⟨by decide, topReferrers_sorted_bounded [(1, [5, 6]), (2, [7, 8]), (4, [9])] 2 (by decide)⟩

/-! ## Claim C10 -/

/-- Claim C10 (status: confirmed).  A successful `/closedraw` flips only the
`active` flag of the first active draw: that draw keeps its id, title and
winners, every other draw is unchanged, and the participant and referral
stores are untouched.  The MongoDB variant (lines 892-899) performs the same
single-field update. -/
theorem closedraw_frame (s : BotState) (a : DrawRec)
    (h : s.draws.find? (fun d => d.active) = some a) :
    (closedrawFull s).1 = CloseResult.closed a.title ∧
    (closedrawFull s).2.parts = s.parts ∧
    (closedrawFull s).2.refs = s.refs ∧
    ∃ l1 l2, s.draws = l1 ++ a :: l2 ∧ (∀ d ∈ l1, d.active = false) ∧
      (closedrawFull s).2.draws
        = l1 ++ DrawRec.mk a.id a.title false a.winners :: l2 := by
  obtain ⟨l1, l2, h1, h2, h3⟩ := closeFirstActive_split s.draws a h
  refine ⟨?_, ?_, ?_, l1, l2, h1, h2, ?_⟩
  · simp [closedrawFull, closedraw, h]
  · simp [closedrawFull, closedraw, h]
  · simp [closedrawFull, closedraw, h]
  · simp [closedrawFull, closedraw, h, h3]

/-- Witness for C10 at a concrete state with two draws, participants and a
referral edge. -/
theorem closedraw_frame_witness :
    ((BotState.mk [⟨"1", "Old", false, ["@w"]⟩, ⟨"2", "T", true, []⟩]
        [("1", [5])] [(2, [3])]).draws.find? (fun d => d.active)
      = some ⟨"2", "T", true, []⟩) ∧
    ((closedrawFull (BotState.mk [⟨"1", "Old", false, ["@w"]⟩, ⟨"2", "T", true, []⟩]
        [("1", [5])] [(2, [3])])).1 = CloseResult.closed (DrawRec.mk "2" "T" true []).title ∧
      (closedrawFull (BotState.mk [⟨"1", "Old", false, ["@w"]⟩, ⟨"2", "T", true, []⟩]
        [("1", [5])] [(2, [3])])).2.parts = [("1", [5])] ∧
      (closedrawFull (BotState.mk [⟨"1", "Old", false, ["@w"]⟩, ⟨"2", "T", true, []⟩]
        [("1", [5])] [(2, [3])])).2.refs = [(2, [3])] ∧
      ∃ l1 l2,
        [⟨"1", "Old", false, ["@w"]⟩, ⟨"2", "T", true, []⟩] = l1 ++ ⟨"2", "T", true, []⟩ :: l2 ∧
        (∀ d ∈ l1, d.active = false) ∧
        (closedrawFull (BotState.mk [⟨"1", "Old", false, ["@w"]⟩, ⟨"2", "T", true, []⟩]
          [("1", [5])] [(2, [3])])).2.draws
          = l1 ++ DrawRec.mk "2" "T" false [] :: l2) :=
  ⟨by decide,
    closedraw_frame (BotState.mk [⟨"1", "Old", false, ["@w"]⟩, ⟨"2", "T", true, []⟩]
      [("1", [5])] [(2, [3])]) ⟨"2", "T", true, []⟩ (by decide)⟩

end LotteryBot
